import Mathlib

/-!
Verification of the msgdispatcher Client (pkg/mq/msgdispatcher/client.go)
against its specification.

The Client's own logic (Register / Deregister / Close) is embedded directly
from client.go.  The DispatcherManager, the physical-channel naming function
(funcutil.ToPhysicalChannel) and the ConcurrentMap live outside the provided
sources, so they are modelled from the spec:
  - DispatcherManager (spec section 4.2): Add / Remove / Num over a main
    Dispatcher plus a set of solo Dispatchers;
  - the naming transformation is an abstract deterministic function
    `phys : String -> String` (spec section 6: a pure, deterministic,
    collision-free external collaborator);
  - Positions are opaque totally ordered markers, modelled as Nat.
Logging, metrics and the role/nodeID fields of the Go client, which feed
only the log lines, are omitted.
-/

/-- Errors surfaced by `DispatcherManager.Add` (spec section 7 taxonomy:
`DuplicateRegistration`, `TransportUnavailable`). -/
inductive AddError where
  | duplicateRegistration
  | transportUnavailable
deriving DecidableEq, Repr

/-- Modelled from the spec: a Dispatcher is `{owning PhysicalTopic, underlying
Transport Consumer, current cursor Position, attached Target set, kind}`.
The consumer itself is external; we keep the cursor (a Nat position) and the
attached Target set (the vchannels of the Targets).  Whether it is the main
or a solo Dispatcher is recorded by its slot in the manager. -/
structure Dispatcher where
  cursor : Nat
  targets : List String
deriving DecidableEq, Repr

/-- Modelled from the spec: a DispatcherManager is `{PhysicalTopic, main
Dispatcher (nullable), set of solo Dispatchers, Target registry}`.  `mid` is
the manager's creation identity (each `NewDispatcherManager` yields a fresh
one), and `runCount` counts how many times the Client has started the
manager's background control loop (`go manager.Run()`). -/
structure DispatcherManager where
  mid : Nat
  runCount : Nat
  main : Option Dispatcher
  solos : List Dispatcher
deriving DecidableEq, Repr

/-- The targets of the main Dispatcher, empty when no main exists. -/
def DispatcherManager.mainTargets (m : DispatcherManager) : List String :=
  match m.main with
  | none => []
  | some d => d.targets

/-- All Targets attached to the manager: main's plus every solo's. -/
def DispatcherManager.allTargets (m : DispatcherManager) : List String :=
  m.mainTargets ++ (m.solos.map Dispatcher.targets).flatten

/-- Modelled from the spec: `Num(): total attached Target count across main
and all solos` (spec section 4.2). -/
def DispatcherManager.Num (m : DispatcherManager) : Nat :=
  m.allTargets.length

/-- `NewDispatcherManager` (called at client.go line 67): a brand-new manager
with no Dispatchers, no Targets and a not-yet-started control loop. -/
def NewDispatcherManager (mid : Nat) : DispatcherManager :=
  { mid := mid, runCount := 0, main := none, solos := [] }

/-- Distance between two positions, used for the tolerance-window check. -/
def posDist (a b : Nat) : Nat :=
  (a - b) + (b - a)

/-- Modelled from the spec (section 4.2 `Add`): fails with
`DuplicateRegistration` if the subscription is already registered anywhere
under the topic; otherwise, with no Dispatcher yet, creates the main
Dispatcher at the desired position; with a main present, attaches to main
when the desired position is within the tolerance window `tol` of main's
cursor, and otherwise creates a solo Dispatcher at the desired position.
Creating a new Transport Consumer (main or solo creation) can fail with a
transport error; `tok` says whether the underlying subscribe succeeds.
`pos` is the concrete start Position already resolved from `(pos, policy)`;
the resolution itself is transport-defined and orthogonal to the Client. -/
def DispatcherManager.Add (tol : Nat) (m : DispatcherManager) (v : String)
    (pos : Nat) (tok : Bool) : Except AddError DispatcherManager :=
  if v ∈ m.allTargets then
    .error .duplicateRegistration
  else
    match m.main with
    | none =>
        if tok then
          .ok { m with main := some { cursor := pos, targets := [v] } }
        else
          .error .transportUnavailable
    | some d =>
        if posDist pos d.cursor ≤ tol then
          .ok { m with main := some { d with targets := v :: d.targets } }
        else if tok then
          .ok { m with solos := { cursor := pos, targets := [v] } :: m.solos }
        else
          .error .transportUnavailable

/-- Detach the subscription's Target from a Dispatcher (no-op if absent). -/
def Dispatcher.detach (d : Dispatcher) (v : String) : Dispatcher :=
  { d with targets := d.targets.erase v }

/-- Modelled from the spec (section 4.2 `Remove`): detach the Target from
whichever Dispatcher holds it; a solo Dispatcher whose Target set becomes
empty is torn down; the main Dispatcher is never torn down here. -/
def DispatcherManager.Remove (m : DispatcherManager) (v : String) :
    DispatcherManager :=
  { m with
    main := m.main.map (fun d => d.detach v),
    solos := (m.solos.map (fun d => d.detach v)).filter
      (fun d => !d.targets.isEmpty) }

/-- The Client's state: `managers` embeds the `ConcurrentMap[string,
DispatcherManager]` as an association list keyed by physical channel;
`nextMid` supplies fresh manager identities; `closedLog` records, in order,
the state each manager had at the moment `manager.Close()` was invoked on
it.  The Go fields `role`, `nodeID` and `factory` feed only logging and
manager construction and carry no registry state. -/
structure Client where
  managers : List (String × DispatcherManager)
  nextMid : Nat
  closedLog : List DispatcherManager
deriving DecidableEq, Repr

/-- `NewClient`: empty registry (client.go lines 51-58). -/
def NewClient : Client :=
  { managers := [], nextMid := 0, closedLog := [] }

/-- `ConcurrentMap.Get`: first entry with the given key. -/
def lookupMgr : List (String × DispatcherManager) → String →
    Option DispatcherManager
  | [], _ => none
  | e :: rest, p => if e.1 = p then some e.2 else lookupMgr rest p

/-- `ConcurrentMap.Insert`: replace the entry at the key, or append. -/
def insertMgr : List (String × DispatcherManager) → String →
    DispatcherManager → List (String × DispatcherManager)
  | [], p, m => [(p, m)]
  | e :: rest, p, m => if e.1 = p then (p, m) :: rest else e :: insertMgr rest p m

/-- `ConcurrentMap.GetAndRemove` (the removal effect). -/
def removeMgr : List (String × DispatcherManager) → String →
    List (String × DispatcherManager)
  | [], _ => []
  | e :: rest, p => if e.1 = p then removeMgr rest p else e :: removeMgr rest p

/-- `client.Register` (client.go lines 60-82), with the naming transformation
`phys` and the manager tolerance window `tol` as external parameters.
Looks the manager up under the physical channel; when absent, creates a
fresh manager, inserts it and starts its control loop (`go manager.Run()`).
Delegates to `manager.Add`; on error, if the manager holds zero Targets it
is closed and removed from the registry, and the error is returned with no
channel (the `Except.error` case). -/
def Client.Register (phys : String → String) (tol : Nat) (c : Client)
    (v : String) (pos : Nat) (tok : Bool) : Client × Except AddError Unit :=
  let p := phys v
  let found := lookupMgr c.managers p
  let mgr := match found with
    | some m => m
    | none =>
        let m0 := NewDispatcherManager c.nextMid
        { m0 with runCount := m0.runCount + 1 }
  let c1 := match found with
    | some _ => c
    | none =>
        { c with managers := insertMgr c.managers p mgr,
                 nextMid := c.nextMid + 1 }
  match mgr.Add tol v pos tok with
  | .ok m2 =>
      ({ c1 with managers := insertMgr c1.managers p m2 }, .ok ())
  | .error e =>
      if mgr.Num = 0 then
        ({ c1 with managers := removeMgr c1.managers p,
                   closedLog := c1.closedLog ++ [mgr] }, .error e)
      else
        (c1, .error e)

/-- `client.Deregister` (client.go lines 84-95): no-op when the physical
channel has no manager; otherwise removes the vchannel's Target and, when
the manager becomes empty, closes it and removes it from the registry. -/
def Client.Deregister (phys : String → String) (c : Client) (v : String) :
    Client :=
  let p := phys v
  match lookupMgr c.managers p with
  | none => c
  | some m =>
      let m2 := m.Remove v
      if m2.Num = 0 then
        { c with managers := removeMgr c.managers p,
                 closedLog := c.closedLog ++ [m2] }
      else
        { c with managers := insertMgr c.managers p m2 }

/-- `client.Close` (client.go lines 97-107): ranges over the registry,
removing and closing every manager. -/
def Client.Close (c : Client) : Client :=
  { c with managers := [],
           closedLog := c.closedLog ++ c.managers.map Prod.snd }

/-! ### Registry well-formedness

Invariants that every reachable Client state satisfies: registry keys are
distinct, every registered manager carries an identity below `nextMid`,
holds at least one Target with no duplicates, has had its control loop
started exactly once, and keeps no empty solo Dispatcher. -/

/-- Well-formedness of a registered manager. -/
def DispatcherManager.WF (m : DispatcherManager) : Prop :=
  m.allTargets ≠ [] ∧ m.allTargets.Nodup ∧ m.runCount = 1 ∧
    ∀ d ∈ m.solos, d.targets ≠ []

/-- Well-formedness of a Client state. -/
def Client.WF (c : Client) : Prop :=
  (c.managers.map Prod.fst).Nodup ∧
    ∀ e ∈ c.managers, e.2.mid < c.nextMid ∧ e.2.WF

instance (m : DispatcherManager) : Decidable m.WF := by
  unfold DispatcherManager.WF; infer_instance

instance (c : Client) : Decidable c.WF := by
  unfold Client.WF; infer_instance

/-- The manager the Client builds on the creation path of `Register`. -/
def freshManager (k : Nat) : DispatcherManager :=
  { mid := k, runCount := 1, main := none, solos := [] }


/-! ### Traces of Register/Deregister calls and the live-subscription ledger

`Op` is one caller-visible operation.  `stepOp` runs it through the Client
and, alongside, maintains the specification's reference ledger of live
subscriptions: a vchannel is live when its latest successful `Register` has
not been followed by a `Deregister` (spec section 8). -/

inductive Op where
  | reg (v : String) (pos : Nat) (tok : Bool)
  | dereg (v : String)
deriving DecidableEq, Repr

/-- The reference ledger: pairs `(physical channel, vchannel)` currently
live. -/
def liveAt (live : List (String × String)) (p : String) : List String :=
  (live.filter (fun e => e.1 = p)).map Prod.snd

/-- One operation, applied to the Client and to the reference ledger. -/
def stepOp (phys : String → String) (tol : Nat)
    (st : Client × List (String × String)) (op : Op) :
    Client × List (String × String) :=
  match op with
  | .reg v pos tok =>
      let r := Client.Register phys tol st.1 v pos tok
      (r.1, match r.2 with
        | .ok _ => (phys v, v) :: st.2
        | .error _ => st.2)
  | .dereg v =>
      (Client.Deregister phys st.1 v, st.2.erase (phys v, v))

/-- Run a whole trace of operations. -/
def execTrace (phys : String → String) (tol : Nat) (ops : List Op)
    (st : Client × List (String × String)) :
    Client × List (String × String) :=
  ops.foldl (stepOp phys tol) st

/-- Observation: the Targets a topic's manager currently holds. -/
def Client.targetsAt (c : Client) (p : String) : List String :=
  match lookupMgr c.managers p with
  | none => []
  | some m => m.allTargets

/-- Observation: `manager.Num()` for a topic, `0` when no manager exists. -/
def Client.numAt (c : Client) (p : String) : Nat :=
  match lookupMgr c.managers p with
  | none => 0
  | some m => m.Num

/-- Observation: the main Dispatcher's Target list for a topic. -/
def Client.mainTargetsAt (c : Client) (p : String) : List String :=
  match lookupMgr c.managers p with
  | none => []
  | some m => m.mainTargets

/-- Observation: the solo Dispatchers for a topic. -/
def Client.solosAt (c : Client) (p : String) : List Dispatcher :=
  match lookupMgr c.managers p with
  | none => []
  | some m => m.solos


/-- The Client agrees with the reference ledger: the Client is well-formed
and, per topic, the manager's Target list is a permutation of the ledger's
live subscriptions for that topic. -/
def TraceInv (c : Client) (live : List (String × String)) : Prop :=
  c.WF ∧ ∀ p, (c.targetsAt p).Perm (liveAt live p)


/-! ### Interleaved executions of client.Register

client.go lines 60-82 perform `Get` (line 65), `NewDispatcherManager` +
`Insert` + `go Run()` (lines 67-69), `manager.Add` (line 71), the
`manager.Num() == 0` read (line 73) and `manager.Close()` +
`GetAndRemove` (lines 74-75) as separate operations on shared state with no
lock spanning the sequence; each individual `ConcurrentMap` operation is
atomic on its own.  `cstep` breaks `Register` into exactly those atomic
micro-operations so that interleavings of concurrent `Register` calls can
be examined.  Managers live in a heap indexed by allocation order, because
in Go the map entry and the local variable `manager` alias one mutable
object. -/

/-- Mutable manager object for the interleaved model: its attached Target
tags, whether `Close()` has been called on it, and whether its control loop
was started. -/
structure Mgr where
  targets : List String
  closed : Bool
  running : Bool
deriving DecidableEq, Repr

/-- Shared process state: the `ConcurrentMap` (topic to heap index) and the
heap of manager objects. -/
structure Shared where
  table : List (String × Nat)
  heap : List Mgr
deriving DecidableEq, Repr

def lookupRef : List (String × Nat) → String → Option Nat
  | [], _ => none
  | e :: rest, p => if e.1 = p then some e.2 else lookupRef rest p

def insertRef : List (String × Nat) → String → Nat → List (String × Nat)
  | [], p, r => [(p, r)]
  | e :: rest, p, r => if e.1 = p then (p, r) :: rest else e :: insertRef rest p r

def removeRef : List (String × Nat) → String → List (String × Nat)
  | [], _ => []
  | e :: rest, p => if e.1 = p then removeRef rest p else e :: removeRef rest p

/-- Program counter of one thread running `client.Register`:
`start` = about to `Get`; `gotNone` = `Get` returned nothing, about to
create + `Insert` + start `Run`; `haveMgr r` = holds the manager at heap
slot `r`, about to call `Add`; `addDone r failed` = `Add` returned, about
to check `Num()` when it failed; `evict r` = read `Num() == 0`, about to
`Close` and `GetAndRemove`; `finished ok` = `Register` returned. -/
inductive TPC where
  | start
  | gotNone
  | haveMgr (r : Nat)
  | addDone (r : Nat) (failed : Bool)
  | evict (r : Nat)
  | finished (ok : Bool)
deriving DecidableEq, Repr

/-- One in-flight `Register(v)` call; `tok` says whether its `Add` would
succeed on the transport side. -/
structure Thread where
  v : String
  tok : Bool
  pc : TPC
deriving DecidableEq, Repr

/-- One atomic micro-operation of `client.Register` by one thread. -/
def cstep (phys : String → String) (sh : Shared) (t : Thread) :
    Shared × Thread :=
  match t.pc with
  | .start =>
      match lookupRef sh.table (phys t.v) with
      | some r => (sh, { t with pc := .haveMgr r })
      | none => (sh, { t with pc := .gotNone })
  | .gotNone =>
      let r := sh.heap.length
      ({ table := insertRef sh.table (phys t.v) r,
         heap := sh.heap ++ [{ targets := [], closed := false, running := true }] },
       { t with pc := .haveMgr r })
  | .haveMgr r =>
      match sh.heap[r]? with
      | none => (sh, { t with pc := .finished false })
      | some g =>
          if t.tok ∧ t.v ∉ g.targets then
            ({ sh with
                heap := sh.heap.set r { g with targets := g.targets ++ [t.v] } },
             { t with pc := .addDone r false })
          else
            (sh, { t with pc := .addDone r true })
  | .addDone r failed =>
      if failed then
        match sh.heap[r]? with
        | none => (sh, { t with pc := .finished false })
        | some g =>
            if g.targets.length = 0 then (sh, { t with pc := .evict r })
            else (sh, { t with pc := .finished false })
      else (sh, { t with pc := .finished true })
  | .evict r =>
      match sh.heap[r]? with
      | none => (sh, { t with pc := .finished false })
      | some g =>
          ({ table := removeRef sh.table (phys t.v),
             heap := sh.heap.set r { g with closed := true } },
           { t with pc := .finished false })
  | .finished _ => (sh, t)

/-- Run a schedule: each entry picks the thread that performs its next
micro-operation. -/
def runSched (phys : String → String) :
    List Nat → Shared × List Thread → Shared × List Thread
  | [], st => st
  | i :: rest, (sh, ts) =>
      match ts[i]? with
      | none => runSched phys rest (sh, ts)
      | some t =>
          let r := cstep phys sh t
          runSched phys rest (r.1, ts.set i r.2)

/-! ### Concrete states used to exercise the theorems -/

/-- A naming transformation mapping every vchannel of the examples onto the
one physical topic `p0`. -/
def physP0 : String → String := fun _ => "p0"

/-- A manager serving one live subscription `v1` from its main Dispatcher. -/
def mgrW1 : DispatcherManager :=
  { mid := 0, runCount := 1,
    main := some { cursor := 5, targets := ["v1"] }, solos := [] }

/-- A Client with `mgrW1` registered for topic `p0`. -/
def cliW1 : Client :=
  { managers := [("p0", mgrW1)], nextMid := 1, closedLog := [] }

/-- A manager serving two live subscriptions from its main Dispatcher. -/
def mgrW2 : DispatcherManager :=
  { mid := 0, runCount := 1,
    main := some { cursor := 0, targets := ["v1", "v2"] }, solos := [] }

/-- A Client with `mgrW2` registered for topic `p0`. -/
def cliW2 : Client :=
  { managers := [("p0", mgrW2)], nextMid := 1, closedLog := [] }

/-- The state of `mgrW1` after a second subscription `v2` is attached to
its main Dispatcher. -/
def mgrW1v2 : DispatcherManager :=
  { mid := 0, runCount := 1,
    main := some { cursor := 5, targets := ["v2", "v1"] }, solos := [] }

/-! ### Association-list registry lemmas -/

theorem lookupMgr_insertMgr_self (l : List (String × DispatcherManager))
    (p : String) (m : DispatcherManager) :
    lookupMgr (insertMgr l p m) p = some m := by
  induction l with
  | nil => simp [insertMgr, lookupMgr]
  | cons e rest ih =>
      by_cases h : e.1 = p
      · simp [insertMgr, lookupMgr, h]
      · simp [insertMgr, lookupMgr, h, ih]

theorem lookupMgr_insertMgr_ne (l : List (String × DispatcherManager))
    (p q : String) (m : DispatcherManager) (h : q ≠ p) :
    lookupMgr (insertMgr l p m) q = lookupMgr l q := by
  induction l with
  | nil =>
      simp only [insertMgr, lookupMgr]
      rw [if_neg (fun hh => h hh.symm)]
  | cons e rest ih =>
      by_cases he : e.1 = p
      · subst he
        simp only [insertMgr, if_pos rfl, lookupMgr]
        rw [if_neg (fun hh => h hh.symm), if_neg (fun hh => h hh.symm)]
      · simp only [insertMgr, if_neg he, lookupMgr, ih]

theorem lookupMgr_removeMgr_self (l : List (String × DispatcherManager))
    (p : String) : lookupMgr (removeMgr l p) p = none := by
  induction l with
  | nil => rfl
  | cons e rest ih =>
      by_cases h : e.1 = p
      · simpa only [removeMgr, if_pos h] using ih
      · simp only [removeMgr, if_neg h, lookupMgr]
        exact ih

theorem lookupMgr_removeMgr_ne (l : List (String × DispatcherManager))
    (p q : String) (h : q ≠ p) :
    lookupMgr (removeMgr l p) q = lookupMgr l q := by
  induction l with
  | nil => rfl
  | cons e rest ih =>
      by_cases he : e.1 = p
      · have hq : e.1 ≠ q := fun hh => h (he ▸ hh.symm ▸ rfl)
        simp only [removeMgr, if_pos he, lookupMgr, if_neg hq]
        exact ih
      · by_cases heq : e.1 = q
        · simp only [removeMgr, if_neg he, lookupMgr, if_pos heq]
        · simp only [removeMgr, if_neg he, lookupMgr, if_neg heq]
          exact ih

theorem insertMgr_lookupMgr_eq (l : List (String × DispatcherManager))
    (p : String) (m : DispatcherManager) (h : lookupMgr l p = some m) :
    insertMgr l p m = l := by
  induction l with
  | nil => simp [lookupMgr] at h
  | cons e rest ih =>
      by_cases he : e.1 = p
      · simp only [lookupMgr, if_pos he, Option.some.injEq] at h
        have hpm : (p, m) = e := by rw [← he, ← h]
        simp only [insertMgr, if_pos he, hpm]
      · simp only [lookupMgr, if_neg he] at h
        simp [insertMgr, he, ih h]

theorem lookupMgr_mem (l : List (String × DispatcherManager)) (p : String)
    (m : DispatcherManager) (h : lookupMgr l p = some m) : (p, m) ∈ l := by
  induction l with
  | nil => simp [lookupMgr] at h
  | cons e rest ih =>
      by_cases he : e.1 = p
      · simp only [lookupMgr, if_pos he, Option.some.injEq] at h
        have hpm : (p, m) = e := by rw [← he, ← h]
        rw [hpm]
        exact List.mem_cons_self _ _
      · simp only [lookupMgr, if_neg he] at h
        exact List.mem_cons_of_mem _ (ih h)

theorem keys_insertMgr (l : List (String × DispatcherManager)) (p : String)
    (m : DispatcherManager) :
    (insertMgr l p m).map Prod.fst =
      if p ∈ l.map Prod.fst then l.map Prod.fst
      else l.map Prod.fst ++ [p] := by
  induction l with
  | nil => simp [insertMgr]
  | cons e rest ih =>
      by_cases he : e.1 = p
      · simp [insertMgr, he]
      · have hne : ¬ p = e.1 := fun hh => he hh.symm
        by_cases hp : p ∈ rest.map Prod.fst
        · simp [insertMgr, he, ih, hp, hne]
        · simp [insertMgr, he, ih, hp, hne]

theorem keys_insertMgr_nodup (l : List (String × DispatcherManager))
    (p : String) (m : DispatcherManager)
    (h : (l.map Prod.fst).Nodup) :
    ((insertMgr l p m).map Prod.fst).Nodup := by
  rw [keys_insertMgr]
  by_cases hp : p ∈ l.map Prod.fst
  · simpa [hp] using h
  · simp only [hp, if_false]
    exact List.Nodup.append h (List.nodup_singleton p)
      (by simpa [List.disjoint_singleton] using hp)

theorem removeMgr_sublist (l : List (String × DispatcherManager))
    (p : String) : (removeMgr l p).Sublist l := by
  induction l with
  | nil => simp [removeMgr]
  | cons e rest ih =>
      by_cases h : e.1 = p
      · simp only [removeMgr, if_pos h]
        exact ih.cons _
      · simp only [removeMgr, if_neg h]
        exact ih.cons₂ _

theorem keys_removeMgr_nodup (l : List (String × DispatcherManager))
    (p : String) (h : (l.map Prod.fst).Nodup) :
    ((removeMgr l p).map Prod.fst).Nodup :=
  h.sublist (List.Sublist.map Prod.fst (removeMgr_sublist l p))

/-! ### Manager-level lemmas -/

theorem mem_allTargets (m : DispatcherManager) (v : String) :
    v ∈ m.allTargets ↔ v ∈ m.mainTargets ∨ ∃ d ∈ m.solos, v ∈ d.targets := by
  simp [DispatcherManager.allTargets, List.mem_flatten]

/-- Everything a successful `Add` does: the subscription was not yet
registered, exactly one Target (for `v`) is added, identity and control-loop
count are untouched, and any new solo carries exactly the new Target. -/
theorem Add_ok_spec (tol : Nat) (m m2 : DispatcherManager) (v : String)
    (pos : Nat) (tok : Bool) (h : m.Add tol v pos tok = .ok m2) :
    v ∉ m.allTargets ∧ m2.allTargets.Perm (v :: m.allTargets) ∧
      m2.mid = m.mid ∧ m2.runCount = m.runCount ∧
      ∀ d ∈ m2.solos, d ∈ m.solos ∨ d.targets = [v] := by
  unfold DispatcherManager.Add at h
  split at h
  case isTrue hv => exact absurd h (by simp)
  case isFalse hv =>
    refine ⟨hv, ?_⟩
    split at h
    case h_1 hm =>
      split at h
      case isTrue ht =>
        injection h with h2
        subst h2
        refine ⟨?_, rfl, rfl, fun d hd => Or.inl hd⟩
        simp [DispatcherManager.allTargets, DispatcherManager.mainTargets, hm]
      case isFalse => exact absurd h (by simp)
    case h_2 d hm =>
      split at h
      case isTrue htol =>
        injection h with h2
        subst h2
        refine ⟨?_, rfl, rfl, fun d2 hd2 => Or.inl hd2⟩
        simp [DispatcherManager.allTargets, DispatcherManager.mainTargets, hm]
      case isFalse htol =>
        split at h
        case isTrue ht =>
          injection h with h2
          subst h2
          refine ⟨?_, rfl, rfl, ?_⟩
          · simp only [DispatcherManager.allTargets, DispatcherManager.mainTargets,
              hm, List.map_cons, List.flatten_cons, List.singleton_append]
            exact List.perm_middle
          · intro d2 hd2
            rcases List.mem_cons.mp hd2 with h3 | h3
            · right
              rw [h3]
            · left
              exact h3
        case isFalse => exact absurd h (by simp)

/-- `Add` of an already-registered subscription fails with
`DuplicateRegistration`. -/
theorem Add_dup (tol : Nat) (m : DispatcherManager) (v : String) (pos : Nat)
    (tok : Bool) (hv : v ∈ m.allTargets) :
    m.Add tol v pos tok = .error .duplicateRegistration := by
  unfold DispatcherManager.Add
  rw [if_pos hv]

theorem freshManager_allTargets (k : Nat) :
    (freshManager k).allTargets = [] := rfl

theorem Add_fresh_ok (tol k : Nat) (v : String) (pos : Nat) :
    (freshManager k).Add tol v pos true
      = .ok { mid := k, runCount := 1,
              main := some { cursor := pos, targets := [v] }, solos := [] } := by
  simp [DispatcherManager.Add, freshManager, DispatcherManager.allTargets,
    DispatcherManager.mainTargets]

theorem Add_fresh_error (tol k : Nat) (v : String) (pos : Nat) :
    (freshManager k).Add tol v pos false = .error .transportUnavailable := by
  simp [DispatcherManager.Add, freshManager, DispatcherManager.allTargets,
    DispatcherManager.mainTargets]

/-- `Remove` on the main Dispatcher's Target list is `List.erase`. -/
theorem mainTargets_Remove (m : DispatcherManager) (v : String) :
    (m.Remove v).mainTargets = m.mainTargets.erase v := by
  cases hm : m.main <;>
    simp [DispatcherManager.Remove, DispatcherManager.mainTargets, hm,
      Dispatcher.detach]

@[simp] theorem detach_targets (d : Dispatcher) (v : String) :
    (d.detach v).targets = d.targets.erase v := rfl

/-- Tearing down emptied solos does not change the flattened Target list:
the solo side of `Remove` is per-list `List.erase`. -/
theorem soloFlatten_Remove (v : String) (ds : List Dispatcher) :
    (((ds.map (fun d => d.detach v)).filter
        (fun d => !d.targets.isEmpty)).map Dispatcher.targets).flatten
      = (ds.map (fun d => d.targets.erase v)).flatten := by
  induction ds with
  | nil => rfl
  | cons d rest ih =>
      by_cases hd : (d.targets.erase v).isEmpty
      · have hnil : d.targets.erase v = [] := by
          simpa using hd
        simp [hd, ih, hnil]
      · simp [hd, ih]

/-- Erasing elementwise under a flatten is erasing in the flattened list,
provided the flattened list has no duplicates. -/
theorem flatten_erase (v : String) (L : List (List String))
    (h : L.flatten.Nodup) :
    (L.map (fun l => l.erase v)).flatten = L.flatten.erase v := by
  induction L with
  | nil => rfl
  | cons l rest ih =>
      simp only [List.map_cons, List.flatten_cons] at h ⊢
      rcases List.nodup_append.mp h with ⟨h1, h2, h3⟩
      by_cases hv : v ∈ l
      · have hvr : v ∉ rest.flatten := fun hm => h3 hv hm
        rw [List.erase_append_left _ hv, ih h2, List.erase_of_not_mem hvr]
      · rw [List.erase_of_not_mem hv, List.erase_append_right _ hv, ih h2]

/-- `Remove` erases exactly the one Target of the subscription. -/
theorem allTargets_Remove (m : DispatcherManager) (v : String)
    (h : m.allTargets.Nodup) :
    (m.Remove v).allTargets = m.allTargets.erase v := by
  have key : (m.Remove v).allTargets
      = m.mainTargets.erase v
        ++ ((m.solos.map Dispatcher.targets).map (fun l => l.erase v)).flatten := by
    show (m.Remove v).mainTargets
        ++ (((m.solos.map (fun d => d.detach v)).filter
            (fun d => !d.targets.isEmpty)).map Dispatcher.targets).flatten = _
    rw [mainTargets_Remove, soloFlatten_Remove, List.map_map]
    rfl
  rw [key]
  have hnd : (m.mainTargets ++ (m.solos.map Dispatcher.targets).flatten).Nodup := h
  rcases List.nodup_append.mp hnd with ⟨h1, h2, h3⟩
  rw [flatten_erase v _ h2]
  show _ = (m.mainTargets ++ (m.solos.map Dispatcher.targets).flatten).erase v
  by_cases hv : v ∈ m.mainTargets
  · have hvr : v ∉ (m.solos.map Dispatcher.targets).flatten := fun hm => h3 hv hm
    rw [List.erase_append_left _ hv, List.erase_of_not_mem hvr]
  · rw [List.erase_of_not_mem hv, List.erase_append_right _ hv]

/-- Solos stay nonempty through `Remove`. -/
theorem solos_Remove_ne_nil (m : DispatcherManager) (v : String) :
    ∀ d ∈ (m.Remove v).solos, d.targets ≠ [] := by
  intro d hd
  simp only [DispatcherManager.Remove, List.mem_filter] at hd
  intro hnil
  rw [hnil] at hd
  simp at hd

/-- Detaching an unregistered subscription and pruning empty solos keeps a
list of nonempty Dispatchers unchanged. -/
theorem solosFilter_id (v : String) (ds : List Dispatcher)
    (hne : ∀ d ∈ ds, d.targets ≠ []) (hnm : ∀ d ∈ ds, v ∉ d.targets) :
    (ds.map (fun d => d.detach v)).filter (fun d => !d.targets.isEmpty) = ds := by
  induction ds with
  | nil => rfl
  | cons d rest ih =>
      have hdd : d.detach v = d := by
        unfold Dispatcher.detach
        rw [List.erase_of_not_mem (hnm d (List.mem_cons_self d rest))]
      have hde : d.targets ≠ [] := hne d (List.mem_cons_self d rest)
      simp only [List.map_cons, hdd, List.filter_cons]
      rw [if_pos (by simpa using hde)]
      rw [ih (fun x hx => hne x (List.mem_cons_of_mem d hx))
        (fun x hx => hnm x (List.mem_cons_of_mem d hx))]

/-- Removing a subscription that is not registered is a no-op. -/
theorem Remove_of_not_mem (m : DispatcherManager) (v : String)
    (hv : v ∉ m.allTargets) (hs : ∀ d ∈ m.solos, d.targets ≠ []) :
    m.Remove v = m := by
  have hmt : v ∉ m.mainTargets := fun hh =>
    hv ((mem_allTargets m v).mpr (Or.inl hh))
  have hst : ∀ d ∈ m.solos, v ∉ d.targets := fun d hd hh =>
    hv ((mem_allTargets m v).mpr (Or.inr ⟨d, hd, hh⟩))
  have h1 : m.main.map (fun d => d.detach v) = m.main := by
    cases hm : m.main with
    | none => rfl
    | some d =>
        have : v ∉ d.targets := by
          have := hmt
          rw [DispatcherManager.mainTargets, hm] at this
          exact this
        simp [Dispatcher.detach, List.erase_of_not_mem this]
  have h2 : (m.solos.map (fun d => d.detach v)).filter
      (fun d => !d.targets.isEmpty) = m.solos :=
    solosFilter_id v m.solos hs hst
  unfold DispatcherManager.Remove
  rw [h1, h2]

/-! ### Unfolding the Client operations case by case -/

@[simp] theorem Remove_mid (m : DispatcherManager) (v : String) :
    (m.Remove v).mid = m.mid := rfl

@[simp] theorem Remove_runCount (m : DispatcherManager) (v : String) :
    (m.Remove v).runCount = m.runCount := rfl

theorem Num_eq_zero_iff (m : DispatcherManager) :
    m.Num = 0 ↔ m.allTargets = [] := by
  simp [DispatcherManager.Num, List.length_eq_zero]

theorem insertMgr_insertMgr (l : List (String × DispatcherManager))
    (p : String) (m m2 : DispatcherManager) :
    insertMgr (insertMgr l p m) p m2 = insertMgr l p m2 := by
  induction l with
  | nil => simp [insertMgr]
  | cons e rest ih =>
      by_cases h : e.1 = p
      · simp [insertMgr, h]
      · simp [insertMgr, h, ih]

theorem removeMgr_insertMgr (l : List (String × DispatcherManager))
    (p : String) (m : DispatcherManager) :
    removeMgr (insertMgr l p m) p = removeMgr l p := by
  induction l with
  | nil => simp [insertMgr, removeMgr]
  | cons e rest ih =>
      by_cases h : e.1 = p
      · simp [insertMgr, h, removeMgr, ih]
      · simp [insertMgr, h, removeMgr, ih]

theorem removeMgr_of_lookup_none (l : List (String × DispatcherManager))
    (p : String) (h : lookupMgr l p = none) : removeMgr l p = l := by
  induction l with
  | nil => rfl
  | cons e rest ih =>
      by_cases he : e.1 = p
      · simp [lookupMgr, he] at h
      · simp only [lookupMgr, if_neg he] at h
        simp [removeMgr, he, ih h]

theorem mem_insertMgr (l : List (String × DispatcherManager)) (p : String)
    (m : DispatcherManager) (e : String × DispatcherManager)
    (he : e ∈ insertMgr l p m) : e ∈ l ∨ e = (p, m) := by
  induction l with
  | nil => simpa [insertMgr] using he
  | cons f rest ih =>
      by_cases h : f.1 = p
      · simp only [insertMgr, if_pos h] at he
        rcases List.mem_cons.mp he with h2 | h2
        · right; exact h2
        · left; exact List.mem_cons_of_mem _ h2
      · simp only [insertMgr, if_neg h] at he
        rcases List.mem_cons.mp he with h2 | h2
        · left; rw [h2]; exact List.mem_cons_self _ _
        · rcases ih h2 with h3 | h3
          · left; exact List.mem_cons_of_mem _ h3
          · right; exact h3

theorem mem_removeMgr (l : List (String × DispatcherManager)) (p : String)
    (e : String × DispatcherManager) (he : e ∈ removeMgr l p) : e ∈ l :=
  (removeMgr_sublist l p).subset he

/-- `Register` when the topic already has a manager and `Add` succeeds. -/
theorem Register_existing_ok (phys : String → String) (tol : Nat) (c : Client)
    (v : String) (pos : Nat) (tok : Bool) (m m2 : DispatcherManager)
    (hm : lookupMgr c.managers (phys v) = some m)
    (hadd : m.Add tol v pos tok = .ok m2) :
    Client.Register phys tol c v pos tok
      = ({ c with managers := insertMgr c.managers (phys v) m2 }, .ok ()) := by
  simp [Client.Register, hm, hadd]

/-- `Register` when the topic already has a manager and `Add` fails while the
manager still holds a Target: nothing changes. -/
theorem Register_existing_error (phys : String → String) (tol : Nat)
    (c : Client) (v : String) (pos : Nat) (tok : Bool)
    (m : DispatcherManager) (e : AddError)
    (hm : lookupMgr c.managers (phys v) = some m)
    (hadd : m.Add tol v pos tok = .error e) (hnum : m.Num ≠ 0) :
    Client.Register phys tol c v pos tok = (c, .error e) := by
  simp [Client.Register, hm, hadd, hnum]

/-- `Register` on a topic with no manager yet, with a working transport:
a fresh manager is created, its loop started, and the Target attached. -/
theorem Register_new_ok (phys : String → String) (tol : Nat) (c : Client)
    (v : String) (pos : Nat)
    (hm : lookupMgr c.managers (phys v) = none) :
    Client.Register phys tol c v pos true
      = ({ c with
            managers := insertMgr c.managers (phys v)
              { mid := c.nextMid, runCount := 1,
                main := some { cursor := pos, targets := [v] }, solos := [] },
            nextMid := c.nextMid + 1 }, .ok ()) := by
  have hfresh := Add_fresh_ok tol c.nextMid v pos
  simp only [Client.Register, hm]
  have : ({ NewDispatcherManager c.nextMid with
      runCount := (NewDispatcherManager c.nextMid).runCount + 1 }
        : DispatcherManager) = freshManager c.nextMid := rfl
  rw [this, hfresh]
  simp [insertMgr_insertMgr]

/-- `Register` on a topic with no manager yet, when the underlying subscribe
fails: the fresh empty manager is synchronously closed and evicted and the
registry is left as it was. -/
theorem Register_new_error (phys : String → String) (tol : Nat) (c : Client)
    (v : String) (pos : Nat)
    (hm : lookupMgr c.managers (phys v) = none) :
    Client.Register phys tol c v pos false
      = ({ c with
            managers := c.managers,
            nextMid := c.nextMid + 1,
            closedLog := c.closedLog ++ [freshManager c.nextMid] },
          .error .transportUnavailable) := by
  have hfresh := Add_fresh_error tol c.nextMid v pos
  simp only [Client.Register, hm]
  have hf : ({ NewDispatcherManager c.nextMid with
      runCount := (NewDispatcherManager c.nextMid).runCount + 1 }
        : DispatcherManager) = freshManager c.nextMid := rfl
  rw [hf, hfresh]
  have h0 : (freshManager c.nextMid).Num = 0 := rfl
  simp only [h0, removeMgr_insertMgr, removeMgr_of_lookup_none _ _ hm]
  simp

/-- `Deregister` of a topic with no manager. -/
theorem Deregister_none (phys : String → String) (c : Client) (v : String)
    (hm : lookupMgr c.managers (phys v) = none) :
    Client.Deregister phys c v = c := by
  simp [Client.Deregister, hm]

/-- `Deregister` that empties the manager: eviction and close. -/
theorem Deregister_some_empty (phys : String → String) (c : Client)
    (v : String) (m : DispatcherManager)
    (hm : lookupMgr c.managers (phys v) = some m)
    (h0 : (m.Remove v).Num = 0) :
    Client.Deregister phys c v
      = { c with managers := removeMgr c.managers (phys v),
                 closedLog := c.closedLog ++ [m.Remove v] } := by
  simp [Client.Deregister, hm, h0]

/-- `Deregister` that leaves the manager with Targets: only the manager's
entry is updated. -/
theorem Deregister_some_live (phys : String → String) (c : Client)
    (v : String) (m : DispatcherManager)
    (hm : lookupMgr c.managers (phys v) = some m)
    (h0 : (m.Remove v).Num ≠ 0) :
    Client.Deregister phys c v
      = { c with managers := insertMgr c.managers (phys v) (m.Remove v) } := by
  simp [Client.Deregister, hm, h0]

/-! ### Preservation of well-formedness -/

theorem MgrWF_Add_ok (tol : Nat) (m m2 : DispatcherManager) (v : String)
    (pos : Nat) (tok : Bool) (h : m.Add tol v pos tok = .ok m2)
    (hnd : m.allTargets.Nodup) (hrc : m.runCount = 1)
    (hs : ∀ d ∈ m.solos, d.targets ≠ []) : m2.WF := by
  rcases Add_ok_spec tol m m2 v pos tok h with ⟨hv, hperm, _hmid, hrc2, hsolo⟩
  refine ⟨?_, ?_, ?_, ?_⟩
  · intro hnil
    have hlen := hperm.length_eq
    rw [hnil] at hlen
    simp at hlen
  · exact hperm.nodup_iff.mpr (List.nodup_cons.mpr ⟨hv, hnd⟩)
  · rw [hrc2, hrc]
  · intro d hd
    rcases hsolo d hd with h1 | h1
    · exact hs d h1
    · rw [h1]
      simp

theorem WF_NewClient : NewClient.WF := by
  refine ⟨List.nodup_nil, ?_⟩
  intro e he
  simp [NewClient] at he

theorem WF_Register (phys : String → String) (tol : Nat) (c : Client)
    (v : String) (pos : Nat) (tok : Bool) (h : c.WF) :
    (Client.Register phys tol c v pos tok).1.WF := by
  rcases h with ⟨hkeys, hmem⟩
  cases hl : lookupMgr c.managers (phys v) with
  | none =>
      cases tok with
      | true =>
          rw [Register_new_ok phys tol c v pos hl]
          refine ⟨keys_insertMgr_nodup _ _ _ hkeys, ?_⟩
          intro e he
          rcases mem_insertMgr _ _ _ _ he with h1 | h1
          · rcases hmem e h1 with ⟨hmid, hwf⟩
            exact ⟨Nat.lt_succ_of_lt hmid, hwf⟩
          · rw [h1]
            refine ⟨Nat.lt_succ_self _, ?_, ?_, rfl, ?_⟩
            · simp [DispatcherManager.allTargets, DispatcherManager.mainTargets]
            · simp [DispatcherManager.allTargets, DispatcherManager.mainTargets]
            · intro d hd
              simp at hd
      | false =>
          rw [Register_new_error phys tol c v pos hl]
          refine ⟨hkeys, ?_⟩
          intro e he
          rcases hmem e he with ⟨hmid, hwf⟩
          exact ⟨Nat.lt_succ_of_lt hmid, hwf⟩
  | some m =>
      rcases hmem (phys v, m) (lookupMgr_mem _ _ _ hl) with
        ⟨hmid, hne, hnd, hrc, hsolos⟩
      cases hadd : m.Add tol v pos tok with
      | ok m2 =>
          rw [Register_existing_ok phys tol c v pos tok m m2 hl hadd]
          refine ⟨keys_insertMgr_nodup _ _ _ hkeys, ?_⟩
          intro e he
          rcases mem_insertMgr _ _ _ _ he with h1 | h1
          · exact hmem e h1
          · rw [h1]
            have hwf2 := MgrWF_Add_ok tol m m2 v pos tok hadd hnd hrc hsolos
            have hmid2 : m2.mid = m.mid :=
              (Add_ok_spec tol m m2 v pos tok hadd).2.2.1
            exact ⟨by rw [hmid2]; exact hmid, hwf2⟩
      | error e =>
          have hnum : m.Num ≠ 0 := by
            rw [Ne, Num_eq_zero_iff]
            exact hne
          rw [Register_existing_error phys tol c v pos tok m e hl hadd hnum]
          exact ⟨hkeys, hmem⟩

theorem WF_Deregister (phys : String → String) (c : Client) (v : String)
    (h : c.WF) : (Client.Deregister phys c v).WF := by
  rcases h with ⟨hkeys, hmem⟩
  cases hl : lookupMgr c.managers (phys v) with
  | none =>
      rw [Deregister_none phys c v hl]
      exact ⟨hkeys, hmem⟩
  | some m =>
      rcases hmem (phys v, m) (lookupMgr_mem _ _ _ hl) with
        ⟨hmid, hne, hnd, hrc, hsolos⟩
      by_cases h0 : (m.Remove v).Num = 0
      · rw [Deregister_some_empty phys c v m hl h0]
        refine ⟨keys_removeMgr_nodup _ _ hkeys, ?_⟩
        intro e he
        exact hmem e (mem_removeMgr _ _ _ he)
      · rw [Deregister_some_live phys c v m hl h0]
        refine ⟨keys_insertMgr_nodup _ _ _ hkeys, ?_⟩
        intro e he
        rcases mem_insertMgr _ _ _ _ he with h1 | h1
        · exact hmem e h1
        · rw [h1]
          refine ⟨by simpa using hmid, ?_, ?_, ?_, ?_⟩
          · rw [Ne, ← Num_eq_zero_iff]
            exact h0
          · rw [allTargets_Remove m v hnd]
            exact hnd.erase v
          · simpa using hrc
          · exact solos_Remove_ne_nil m v

theorem WF_Close (c : Client) : (Client.Close c).WF := by
  refine ⟨?_, ?_⟩
  · simp [Client.Close]
  · intro e he
    simp [Client.Close] at he

theorem numAt_eq_length_targetsAt (c : Client) (p : String) :
    c.numAt p = (c.targetsAt p).length := by
  unfold Client.numAt Client.targetsAt
  cases lookupMgr c.managers p with
  | none => rfl
  | some m => rfl

theorem liveAt_cons_self (live : List (String × String)) (p v : String) :
    liveAt ((p, v) :: live) p = v :: liveAt live p := by
  simp [liveAt]

theorem liveAt_cons_ne (live : List (String × String)) (p v q : String)
    (h : q ≠ p) : liveAt ((p, v) :: live) q = liveAt live q := by
  have hpq : ¬ (p = q) := fun hh => h hh.symm
  simp [liveAt, hpq]

theorem liveAt_erase (live : List (String × String)) (p v : String) :
    liveAt (live.erase (p, v)) p = (liveAt live p).erase v := by
  induction live with
  | nil => rfl
  | cons e rest ih =>
      by_cases he : e = (p, v)
      · subst he
        rw [List.erase_cons_head]
        rw [liveAt_cons_self]
        rw [List.erase_cons_head]
      · rw [List.erase_cons_tail (by simpa using he)]
        by_cases hp : e.1 = p
        · have hv : e.2 ≠ v := by
            intro hh
            exact he (Prod.ext hp hh)
          have hee : e = (p, e.2) := Prod.ext hp rfl
          rw [hee, liveAt_cons_self, liveAt_cons_self, ih,
            List.erase_cons_tail (by simpa using hv)]
        · have h1 : liveAt (e :: rest.erase (p, v)) p
              = liveAt (rest.erase (p, v)) p := by
            simp [liveAt, hp]
          have h2 : liveAt (e :: rest) p = liveAt rest p := by
            simp [liveAt, hp]
          rw [h1, h2, ih]

theorem liveAt_erase_ne (live : List (String × String)) (p v q : String)
    (h : q ≠ p) : liveAt (live.erase (p, v)) q = liveAt live q := by
  induction live with
  | nil => rfl
  | cons e rest ih =>
      by_cases he : e = (p, v)
      · subst he
        rw [List.erase_cons_head, liveAt_cons_ne _ _ _ _ h]
      · rw [List.erase_cons_tail (by simpa using he)]
        by_cases hq : e.1 = q
        · have hee : e = (q, e.2) := Prod.ext hq rfl
          rw [hee, liveAt_cons_self, liveAt_cons_self, ih]
        · have h1 : liveAt (e :: rest.erase (p, v)) q
              = liveAt (rest.erase (p, v)) q := by
            simp [liveAt, hq]
          have h2 : liveAt (e :: rest) q = liveAt rest q := by
            simp [liveAt, hq]
          rw [h1, h2, ih]

theorem mem_liveAt (live : List (String × String)) (p v : String) :
    v ∈ liveAt live p ↔ (p, v) ∈ live := by
  unfold liveAt
  constructor
  · intro h
    rcases List.mem_map.mp h with ⟨e, he, hv⟩
    rcases List.mem_filter.mp he with ⟨he2, hp⟩
    have hp2 : e.1 = p := by simpa using hp
    have : e = (p, v) := Prod.ext hp2 hv
    rw [← this]
    exact he2
  · intro h
    exact List.mem_map.mpr ⟨(p, v), List.mem_filter.mpr ⟨h, by simp⟩, rfl⟩

/-! ### The coupling invariant between Client and ledger -/

theorem targetsAt_eq (c : Client) (p : String) (m : DispatcherManager)
    (h : lookupMgr c.managers p = some m) : c.targetsAt p = m.allTargets := by
  unfold Client.targetsAt
  rw [h]

theorem targetsAt_eq_nil (c : Client) (p : String)
    (h : lookupMgr c.managers p = none) : c.targetsAt p = [] := by
  unfold Client.targetsAt
  rw [h]

@[simp] theorem targetsAt_mk (ms : List (String × DispatcherManager))
    (n : Nat) (log : List DispatcherManager) (p : String) :
    (Client.mk ms n log).targetsAt p =
      (match lookupMgr ms p with
       | none => []
       | some m => m.allTargets) := rfl

theorem TraceInv_NewClient : TraceInv NewClient [] := by
  refine ⟨WF_NewClient, ?_⟩
  intro p
  have h1 : NewClient.targetsAt p = [] := rfl
  have h2 : liveAt [] p = [] := rfl
  rw [h1, h2]

theorem TraceInv_step (phys : String → String) (tol : Nat) (c : Client)
    (live : List (String × String)) (op : Op) (h : TraceInv c live) :
    TraceInv (stepOp phys tol (c, live) op).1
      (stepOp phys tol (c, live) op).2 := by
  rcases h with ⟨hwf, hperm⟩
  cases op with
  | reg v pos tok =>
      refine ⟨WF_Register phys tol c v pos tok hwf, ?_⟩
      cases hl : lookupMgr c.managers (phys v) with
      | none =>
          cases tok with
          | true =>
              have hreg := Register_new_ok phys tol c v pos hl
              simp only [stepOp, hreg, targetsAt_mk]
              intro q
              by_cases hq : q = phys v
              · rw [hq, lookupMgr_insertMgr_self c.managers (phys v),
                  liveAt_cons_self]
                have h0 : ([] : List String).Perm (liveAt live (phys v)) := by
                  have hh := hperm (phys v)
                  rwa [targetsAt_eq_nil c (phys v) hl] at hh
                rw [h0.symm.eq_nil]
                exact List.Perm.refl _
              · rw [lookupMgr_insertMgr_ne c.managers (phys v) q _ hq,
                  liveAt_cons_ne _ _ _ _ hq]
                exact hperm q
          | false =>
              have hreg := Register_new_error phys tol c v pos hl
              simp only [stepOp, hreg, targetsAt_mk]
              intro q
              exact hperm q
      | some m =>
          cases hadd : m.Add tol v pos tok with
          | ok m2 =>
              have hreg := Register_existing_ok phys tol c v pos tok m m2 hl hadd
              simp only [stepOp, hreg, targetsAt_mk]
              intro q
              by_cases hq : q = phys v
              · rw [hq, lookupMgr_insertMgr_self c.managers (phys v) m2,
                  liveAt_cons_self]
                have hps := (Add_ok_spec tol m m2 v pos tok hadd).2.1
                refine hps.trans (List.Perm.cons v ?_)
                have hh := hperm (phys v)
                rwa [targetsAt_eq c (phys v) m hl] at hh
              · rw [lookupMgr_insertMgr_ne c.managers (phys v) q m2 hq,
                  liveAt_cons_ne _ _ _ _ hq]
                exact hperm q
          | error e =>
              have hne : m.allTargets ≠ [] :=
                (hwf.2 (phys v, m) (lookupMgr_mem _ _ _ hl)).2.1
              have hnum : m.Num ≠ 0 := by
                rw [Ne, Num_eq_zero_iff]
                exact hne
              have hreg := Register_existing_error phys tol c v pos tok m e hl
                hadd hnum
              simp only [stepOp, hreg]
              exact hperm
  | dereg v =>
      refine ⟨WF_Deregister phys c v hwf, ?_⟩
      cases hl : lookupMgr c.managers (phys v) with
      | none =>
          have hnm : (phys v, v) ∉ live := by
            intro hmem
            have h0 : ([] : List String).Perm (liveAt live (phys v)) := by
              have hh := hperm (phys v)
              rwa [targetsAt_eq_nil c _ hl] at hh
            have hv : v ∈ liveAt live (phys v) := (mem_liveAt _ _ _).mpr hmem
            rw [h0.symm.eq_nil] at hv
            simp at hv
          have hder := Deregister_none phys c v hl
          simp only [stepOp, hder, List.erase_of_not_mem hnm]
          exact hperm
      | some m =>
          have hmwf := (hwf.2 (phys v, m) (lookupMgr_mem _ _ _ hl)).2
          have hnd : m.allTargets.Nodup := hmwf.2.1
          have hper : (m.allTargets.erase v).Perm
              ((liveAt live (phys v)).erase v) := by
            have hh := hperm (phys v)
            rw [targetsAt_eq c _ m hl] at hh
            exact hh.erase v
          by_cases h0 : (m.Remove v).Num = 0
          · have hder := Deregister_some_empty phys c v m hl h0
            simp only [stepOp, hder, targetsAt_mk]
            intro q
            by_cases hq : q = phys v
            · rw [hq, lookupMgr_removeMgr_self c.managers (phys v), liveAt_erase]
              have h1 : (m.Remove v).allTargets = [] := (Num_eq_zero_iff _).mp h0
              have h2 : m.allTargets.erase v = [] := by
                rw [← allTargets_Remove m v hnd]
                exact h1
              rw [h2] at hper
              exact hper
            · rw [lookupMgr_removeMgr_ne c.managers (phys v) q hq,
                liveAt_erase_ne _ _ _ _ hq]
              exact hperm q
          · have hder := Deregister_some_live phys c v m hl h0
            simp only [stepOp, hder, targetsAt_mk]
            intro q
            by_cases hq : q = phys v
            · rw [hq, lookupMgr_insertMgr_self c.managers (phys v) (m.Remove v),
                liveAt_erase]
              show ((m.Remove v).allTargets).Perm ((liveAt live (phys v)).erase v)
              rw [allTargets_Remove m v hnd]
              exact hper
            · rw [lookupMgr_insertMgr_ne c.managers (phys v) q (m.Remove v) hq,
                liveAt_erase_ne _ _ _ _ hq]
              exact hperm q

theorem TraceInv_execTrace (phys : String → String) (tol : Nat)
    (ops : List Op) (c : Client) (live : List (String × String))
    (h : TraceInv c live) :
    TraceInv (execTrace phys tol ops (c, live)).1
      (execTrace phys tol ops (c, live)).2 := by
  induction ops generalizing c live with
  | nil => exact h
  | cons op rest ih =>
      have hstep := TraceInv_step phys tol c live op h
      have heq : execTrace phys tol (op :: rest) (c, live)
          = execTrace phys tol rest (stepOp phys tol (c, live) op) := rfl
      rw [heq]
      have hpair : stepOp phys tol (c, live) op
          = ((stepOp phys tol (c, live) op).1,
             (stepOp phys tol (c, live) op).2) := rfl
      rw [hpair]
      exact ih _ _ hstep

/-! ### The ten claims -/

/-- C1: after a Deregister that removes the last Target of a topic's manager
(`Num` becomes 0), the Client closes that manager and removes it from the
registry, and a subsequent Register for any subscription mapping to the
same topic creates a brand-new manager: a never-used identity, a fresh
cursor at the new start position, exactly the one new Target and no solo
Dispatchers — no state resumed from the old manager. -/
theorem evict_then_register_creates_fresh_manager (phys : String → String)
    (tol : Nat) (c : Client) (v v2 : String) (pos : Nat)
    (m : DispatcherManager) (hwf : c.WF)
    (hm : lookupMgr c.managers (phys v) = some m)
    (h0 : (m.Remove v).Num = 0) (hp2 : phys v2 = phys v) :
    lookupMgr (Client.Deregister phys c v).managers (phys v) = none ∧
      (Client.Deregister phys c v).closedLog = c.closedLog ++ [m.Remove v] ∧
      (Client.Register phys tol (Client.Deregister phys c v) v2 pos true).2
        = .ok () ∧
      lookupMgr (Client.Register phys tol (Client.Deregister phys c v) v2 pos
          true).1.managers (phys v)
        = some { mid := c.nextMid, runCount := 1,
                 main := some { cursor := pos, targets := [v2] },
                 solos := [] } ∧
      c.nextMid ≠ m.mid := by
  have hder := Deregister_some_empty phys c v m hm h0
  have h1 : lookupMgr (Client.Deregister phys c v).managers (phys v) = none := by
    rw [hder]
    exact lookupMgr_removeMgr_self c.managers (phys v)
  have h2 : (Client.Deregister phys c v).closedLog
      = c.closedLog ++ [m.Remove v] := by
    rw [hder]
  have hl2 : lookupMgr (Client.Deregister phys c v).managers (phys v2)
      = none := by
    rw [hp2]
    exact h1
  have hreg := Register_new_ok phys tol (Client.Deregister phys c v) v2 pos hl2
  have hmid : (Client.Deregister phys c v).nextMid = c.nextMid := by
    rw [hder]
  refine ⟨h1, h2, ?_, ?_, ?_⟩
  · rw [hreg]
  · rw [hreg, ← hp2, lookupMgr_insertMgr_self, hmid]
  · have hmlt := (hwf.2 (phys v, m) (lookupMgr_mem _ _ _ hm)).1
    exact (Nat.ne_of_lt hmlt).symm

theorem evict_then_register_creates_fresh_manager_witness :
    lookupMgr (Client.Deregister physP0 cliW1 "v1").managers (physP0 "v1")
        = none ∧
      (Client.Deregister physP0 cliW1 "v1").closedLog
        = cliW1.closedLog ++ [mgrW1.Remove "v1"] ∧
      (Client.Register physP0 0 (Client.Deregister physP0 cliW1 "v1") "v9" 7
          true).2 = .ok () ∧
      lookupMgr (Client.Register physP0 0 (Client.Deregister physP0 cliW1 "v1")
          "v9" 7 true).1.managers (physP0 "v1")
        = some { mid := cliW1.nextMid, runCount := 1,
                 main := some { cursor := 7, targets := ["v9"] },
                 solos := [] } ∧
      cliW1.nextMid ≠ mgrW1.mid :=
  evict_then_register_creates_fresh_manager physP0 0 cliW1 "v1" "v9" 7 mgrW1
    (by decide) (by decide) (by decide) rfl

/-- C2: a first registration on a topic whose underlying subscribe fails
leaves nothing behind: `Register` returns the transport error with no
channel, the registry is exactly as before (in particular no manager under
the topic), and the fresh zero-Target manager was synchronously closed. -/
theorem failed_first_registration_evicts (phys : String → String) (tol : Nat)
    (c : Client) (v : String) (pos : Nat)
    (hl : lookupMgr c.managers (phys v) = none) :
    (Client.Register phys tol c v pos false).2
        = .error .transportUnavailable ∧
      (Client.Register phys tol c v pos false).1.managers = c.managers ∧
      lookupMgr (Client.Register phys tol c v pos false).1.managers (phys v)
        = none ∧
      (Client.Register phys tol c v pos false).1.closedLog
        = c.closedLog ++ [freshManager c.nextMid] := by
  have hreg := Register_new_error phys tol c v pos hl
  refine ⟨?_, ?_, ?_, ?_⟩
  · rw [hreg]
  · rw [hreg]
  · rw [hreg]
    exact hl
  · rw [hreg]

theorem failed_first_registration_evicts_witness :
    (Client.Register physP0 0 NewClient "v1" 3 false).2
        = .error .transportUnavailable ∧
      (Client.Register physP0 0 NewClient "v1" 3 false).1.managers
        = NewClient.managers ∧
      lookupMgr (Client.Register physP0 0 NewClient "v1" 3 false).1.managers
          (physP0 "v1") = none ∧
      (Client.Register physP0 0 NewClient "v1" 3 false).1.closedLog
        = NewClient.closedLog ++ [freshManager NewClient.nextMid] :=
  failed_first_registration_evicts physP0 0 NewClient "v1" 3 (by decide)

/-- C3: registering a subscription that is already live under its topic
fails with `DuplicateRegistration` and leaves the whole Client state — in
particular the original registration's manager, Target and output queue —
exactly as it was. -/
theorem duplicate_registration_rejected (phys : String → String) (tol : Nat)
    (c : Client) (v : String) (pos : Nat) (tok : Bool) (m : DispatcherManager)
    (hm : lookupMgr c.managers (phys v) = some m)
    (hv : v ∈ m.allTargets) :
    Client.Register phys tol c v pos tok
      = (c, .error .duplicateRegistration) := by
  have hadd := Add_dup tol m v pos tok hv
  have hnum : m.Num ≠ 0 := by
    rw [Ne, Num_eq_zero_iff]
    intro hnil
    rw [hnil] at hv
    simp at hv
  exact Register_existing_error phys tol c v pos tok m _ hm hadd hnum

theorem duplicate_registration_rejected_witness :
    Client.Register physP0 0 cliW1 "v1" 9 true
      = (cliW1, .error .duplicateRegistration) :=
  duplicate_registration_rejected physP0 0 cliW1 "v1" 9 true mgrW1
    (by decide) (by decide)

/-- C4: `Deregister` of an unknown subscription — no manager for its topic,
or its vchannel not registered under that topic's manager — returns with
the Client state unchanged: an idempotent no-op. -/
theorem deregister_unknown_noop (phys : String → String) (c : Client)
    (v : String) (hwf : c.WF) (hunk : v ∉ c.targetsAt (phys v)) :
    Client.Deregister phys c v = c := by
  cases hl : lookupMgr c.managers (phys v) with
  | none => exact Deregister_none phys c v hl
  | some m =>
      have hv : v ∉ m.allTargets := by
        rw [targetsAt_eq c _ m hl] at hunk
        exact hunk
      rcases (hwf.2 (phys v, m) (lookupMgr_mem _ _ _ hl)).2 with
        ⟨hne, _hnd, _hrc, hsolos⟩
      have hrem : m.Remove v = m := Remove_of_not_mem m v hv hsolos
      have h0 : (m.Remove v).Num ≠ 0 := by
        rw [hrem, Ne, Num_eq_zero_iff]
        exact hne
      rw [Deregister_some_live phys c v m hl h0, hrem,
        insertMgr_lookupMgr_eq c.managers (phys v) m hl]

theorem deregister_unknown_noop_witness :
    Client.Deregister physP0 cliW1 "v9" = cliW1 :=
  deregister_unknown_noop physP0 cliW1 "v9" (by decide) (by decide)

/-- C5 (the code violates this): what the interleaved model shows for the
claimed atomic get-or-create.  Two concurrent first-time `Register` calls
on topic `p0` both pass the `Get` (client.go line 65) before either
`Insert` (line 68) runs.  Both threads then create a manager and start its
control loop: two managers exist for one topic, both running and neither
closed, while the registry keeps only the second — the first thread's
manager, serving the channel it returned, has leaked out of the registry
with a live Transport Consumer.  This contradicts "exactly one manager is
created and registered ... every losing racer discards its candidate". -/
theorem register_get_or_create_not_atomic :
    runSched physP0 [0, 1, 0, 1, 0, 1, 0, 1]
        ({ table := [], heap := [] },
         [{ v := "p0_v1", tok := true, pc := .start },
          { v := "p0_v2", tok := true, pc := .start }])
      = ({ table := [("p0", 1)],
           heap := [{ targets := ["p0_v1"], closed := false, running := true },
                    { targets := ["p0_v2"], closed := false, running := true }] },
         [{ v := "p0_v1", tok := true, pc := .finished true },
          { v := "p0_v2", tok := true, pc := .finished true }]) := by
  rfl

/-- C6 (the code violates this): a `Register` whose `Add` fails, racing a
concurrent `Register` whose `Add` succeeds on the same just-created
manager.  Thread 0 creates the manager, its `Add` fails, and it reads
`Num() == 0` (client.go line 73); before it closes the manager, thread 1's
`Add` succeeds and thread 1 returns its channel.  Thread 0 then runs
`manager.Close()` and `GetAndRemove` (lines 74-75): the final state has an
empty registry and a closed manager still holding thread 1's live Target
`p0_v2`, while thread 1's `Register` reported success — a live subscriber
silently dropped, which the claim requires never to happen. -/
theorem register_error_path_evicts_live_manager :
    runSched physP0 [0, 0, 0, 0, 1, 1, 1, 0]
        ({ table := [], heap := [] },
         [{ v := "p0_v1", tok := false, pc := .start },
          { v := "p0_v2", tok := true, pc := .start }])
      = ({ table := [],
           heap := [{ targets := ["p0_v2"], closed := true, running := true }] },
         [{ v := "p0_v1", tok := false, pc := .finished false },
          { v := "p0_v2", tok := true, pc := .finished true }]) := by
  rfl

theorem Num_eq_main_add_solos (m : DispatcherManager) :
    m.Num = m.mainTargets.length
      + (m.solos.map (fun d => d.targets.length)).sum := by
  unfold DispatcherManager.Num DispatcherManager.allTargets
  rw [List.length_append]
  congr 1
  rw [List.length_flatten, List.map_map]
  rfl

theorem numAt_eq_main_add_solos (c : Client) (p : String) :
    c.numAt p = (c.mainTargetsAt p).length
      + ((c.solosAt p).map (fun d => d.targets.length)).sum := by
  unfold Client.numAt Client.mainTargetsAt Client.solosAt
  cases lookupMgr c.managers p with
  | none => rfl
  | some m => exact Num_eq_main_add_solos m

/-- C7: over every trace of Register/Deregister calls started from a fresh
Client, and at every topic, `manager.Num()` (0 when no manager is
registered) equals the number of currently live subscriptions of that topic
in the reference ledger — registered with success and not deregistered —
and also equals the Target count of the main Dispatcher plus the sum of
the Target counts of all solo Dispatchers. -/
theorem num_tracks_live_subscriptions (phys : String → String) (tol : Nat)
    (ops : List Op) (p : String) :
    (execTrace phys tol ops (NewClient, [])).1.numAt p
        = (liveAt (execTrace phys tol ops (NewClient, [])).2 p).length ∧
      (execTrace phys tol ops (NewClient, [])).1.numAt p
        = ((execTrace phys tol ops (NewClient, [])).1.mainTargetsAt p).length
          + (((execTrace phys tol ops (NewClient, [])).1.solosAt p).map
              (fun d => d.targets.length)).sum := by
  have hinv := TraceInv_execTrace phys tol ops NewClient [] TraceInv_NewClient
  constructor
  · rw [numAt_eq_length_targetsAt]
    exact (hinv.2 p).length_eq
  · exact numAt_eq_main_add_solos _ p

/-- C8: after a `Register`, whatever manager is registered under the
subscription's topic has had its control loop started exactly once
(`runCount = 1`), and it is either the manager that already existed for the
topic (same identity — reuse, no additional loop started) or, when none
existed, the one freshly created by this call (identity `c.nextMid`). -/
theorem control_loop_started_exactly_once (phys : String → String) (tol : Nat)
    (c : Client) (v : String) (pos : Nat) (tok : Bool) (m2 : DispatcherManager)
    (hwf : c.WF)
    (hm2 : lookupMgr (Client.Register phys tol c v pos tok).1.managers (phys v)
      = some m2) :
    m2.runCount = 1 ∧
      ((lookupMgr c.managers (phys v)).map DispatcherManager.mid = some m2.mid
        ∨ (lookupMgr c.managers (phys v) = none ∧ m2.mid = c.nextMid)) := by
  constructor
  · have hwfr := WF_Register phys tol c v pos tok hwf
    exact (hwfr.2 (phys v, m2) (lookupMgr_mem _ _ _ hm2)).2.2.2.1
  · cases hl : lookupMgr c.managers (phys v) with
    | none =>
        cases tok with
        | true =>
            have hreg := Register_new_ok phys tol c v pos hl
            rw [hreg, lookupMgr_insertMgr_self] at hm2
            injection hm2 with h
            right
            exact ⟨rfl, by rw [← h]⟩
        | false =>
            have hreg := Register_new_error phys tol c v pos hl
            rw [hreg] at hm2
            have hcontra : (none : Option DispatcherManager) = some m2 := by
              rw [← hl]
              exact hm2
            exact absurd hcontra (by simp)
    | some m =>
        cases hadd : m.Add tol v pos tok with
        | ok m2' =>
            have hreg := Register_existing_ok phys tol c v pos tok m m2' hl hadd
            rw [hreg, lookupMgr_insertMgr_self] at hm2
            injection hm2 with h
            left
            rw [← h, (Add_ok_spec tol m m2' v pos tok hadd).2.2.1]
            rfl
        | error e =>
            have hne : m.allTargets ≠ [] :=
              (hwf.2 (phys v, m) (lookupMgr_mem _ _ _ hl)).2.1
            have hnum : m.Num ≠ 0 := by
              rw [Ne, Num_eq_zero_iff]
              exact hne
            have hreg := Register_existing_error phys tol c v pos tok m e hl
              hadd hnum
            rw [hreg] at hm2
            have hsome : some m = some m2 := by
              rw [← hl]
              exact hm2
            injection hsome with h
            left
            rw [← h]
            rfl

theorem control_loop_started_exactly_once_witness :
    mgrW1v2.runCount = 1 ∧
      ((lookupMgr cliW1.managers (physP0 "v2")).map DispatcherManager.mid
          = some mgrW1v2.mid
        ∨ (lookupMgr cliW1.managers (physP0 "v2") = none
            ∧ mgrW1v2.mid = cliW1.nextMid)) :=
  control_loop_started_exactly_once physP0 0 cliW1 "v2" 5 true mgrW1v2
    (by decide) (by decide)

/-- C9: `Close` empties the topic-to-manager registry and invokes
`manager.Close()` on every manager that was registered: afterwards no topic
resolves to a manager and each previously registered manager appears in the
log of closed managers. -/
theorem close_evicts_and_closes_all_managers (c : Client) (p : String)
    (m : DispatcherManager) (hm : lookupMgr c.managers p = some m) :
    (Client.Close c).managers = [] ∧
      lookupMgr (Client.Close c).managers p = none ∧
      m ∈ (Client.Close c).closedLog := by
  refine ⟨rfl, rfl, ?_⟩
  show m ∈ c.closedLog ++ c.managers.map Prod.snd
  exact List.mem_append_right _
    (List.mem_map.mpr ⟨(p, m), lookupMgr_mem _ _ _ hm, rfl⟩)

theorem close_evicts_and_closes_all_managers_witness :
    (Client.Close cliW1).managers = [] ∧
      lookupMgr (Client.Close cliW1).managers "p0" = none ∧
      mgrW1 ∈ (Client.Close cliW1).closedLog :=
  close_evicts_and_closes_all_managers cliW1 "p0" mgrW1 (by decide)

/-- C10: only the empty-manager case mutates the registry.  When `Add`
fails but the manager still holds a Target, `Register` leaves the Client
state untouched (manager registered, nothing closed); when a `Deregister`
leaves the manager with a Target, the manager stays registered (updated
in place), nothing is closed, and every other topic's entry is unchanged. -/
theorem nonempty_manager_left_registered (phys : String → String) (tol : Nat)
    (c : Client) (v : String) (pos : Nat) (tok : Bool)
    (m : DispatcherManager) (e : AddError) (q : String)
    (hm : lookupMgr c.managers (phys v) = some m) (hq : q ≠ phys v) :
    (m.Add tol v pos tok = .error e → m.Num ≠ 0 →
        Client.Register phys tol c v pos tok = (c, .error e)) ∧
      ((m.Remove v).Num ≠ 0 →
        (Client.Deregister phys c v).closedLog = c.closedLog ∧
          lookupMgr (Client.Deregister phys c v).managers (phys v)
            = some (m.Remove v) ∧
          lookupMgr (Client.Deregister phys c v).managers q
            = lookupMgr c.managers q) := by
  constructor
  · intro hadd hnum
    exact Register_existing_error phys tol c v pos tok m e hm hadd hnum
  · intro h0
    have hder := Deregister_some_live phys c v m hm h0
    refine ⟨?_, ?_, ?_⟩
    · rw [hder]
    · rw [hder]
      exact lookupMgr_insertMgr_self c.managers (phys v) (m.Remove v)
    · rw [hder]
      exact lookupMgr_insertMgr_ne c.managers (phys v) q (m.Remove v) hq

theorem nonempty_manager_left_registered_witness :
    Client.Register physP0 0 cliW2 "v1" 0 true
        = (cliW2, .error .duplicateRegistration) ∧
      ((Client.Deregister physP0 cliW2 "v1").closedLog = cliW2.closedLog ∧
        lookupMgr (Client.Deregister physP0 cliW2 "v1").managers (physP0 "v1")
          = some (mgrW2.Remove "v1") ∧
        lookupMgr (Client.Deregister physP0 cliW2 "v1").managers "q"
          = lookupMgr cliW2.managers "q") := by
  have h := nonempty_manager_left_registered physP0 0 cliW2 "v1" 0 true mgrW2
    .duplicateRegistration "q" (by decide) (by decide)
  exact ⟨h.1 rfl (by decide), h.2 (by decide)⟩
